import Mathlib

/-!
Verification of `src/generate_relational_tables_from_nested_JSON.py`.

The file shallowly embeds the recursive JSON-decomposition program:
dataframes become executable `Table` values, Snowpark's declarative
column operations become list transformations, and the recursive
`model_nested_JSON_objects` closure becomes a fuel-indexed recursive
function threading the process-wide `processed_fields` set and the
`INTERNAL_RESULT_*` result map explicitly as state.  Engine-provided
primitives (the `flatten` table function, `typeof`, `sha2`) are modelled
executably with the semantics the program relies on.
-/

namespace NestedJson

/-- Dynamic (VARIANT) values: the tagged union over null, booleans,
numbers, strings, arrays and objects that the program manipulates. -/
inductive Value where
  | vnull : Value
  | vbool : Bool → Value
  | vnum : Int → Value
  | vstr : String → Value
  | varr : List Value → Value
  | vobj : List (String × Value) → Value

mutual

/-- Decidable equality on values (written by hand: the automatic deriving
does not support this nested inductive). -/
def Value.decEq : (a b : Value) → Decidable (a = b)
  | .vnull, .vnull => .isTrue rfl
  | .vbool a, .vbool b =>
    if h : a = b then .isTrue (by rw [h]) else .isFalse (fun he => h (by cases he; rfl))
  | .vnum a, .vnum b =>
    if h : a = b then .isTrue (by rw [h]) else .isFalse (fun he => h (by cases he; rfl))
  | .vstr a, .vstr b =>
    if h : a = b then .isTrue (by rw [h]) else .isFalse (fun he => h (by cases he; rfl))
  | .varr a, .varr b =>
    match Value.decEqList a b with
    | .isTrue h => .isTrue (by rw [h])
    | .isFalse h => .isFalse (fun he => h (by cases he; rfl))
  | .vobj a, .vobj b =>
    match Value.decEqObj a b with
    | .isTrue h => .isTrue (by rw [h])
    | .isFalse h => .isFalse (fun he => h (by cases he; rfl))
  | .vnull, .vbool _ => .isFalse (fun h => Value.noConfusion h)
  | .vnull, .vnum _ => .isFalse (fun h => Value.noConfusion h)
  | .vnull, .vstr _ => .isFalse (fun h => Value.noConfusion h)
  | .vnull, .varr _ => .isFalse (fun h => Value.noConfusion h)
  | .vnull, .vobj _ => .isFalse (fun h => Value.noConfusion h)
  | .vbool _, .vnull => .isFalse (fun h => Value.noConfusion h)
  | .vbool _, .vnum _ => .isFalse (fun h => Value.noConfusion h)
  | .vbool _, .vstr _ => .isFalse (fun h => Value.noConfusion h)
  | .vbool _, .varr _ => .isFalse (fun h => Value.noConfusion h)
  | .vbool _, .vobj _ => .isFalse (fun h => Value.noConfusion h)
  | .vnum _, .vnull => .isFalse (fun h => Value.noConfusion h)
  | .vnum _, .vbool _ => .isFalse (fun h => Value.noConfusion h)
  | .vnum _, .vstr _ => .isFalse (fun h => Value.noConfusion h)
  | .vnum _, .varr _ => .isFalse (fun h => Value.noConfusion h)
  | .vnum _, .vobj _ => .isFalse (fun h => Value.noConfusion h)
  | .vstr _, .vnull => .isFalse (fun h => Value.noConfusion h)
  | .vstr _, .vbool _ => .isFalse (fun h => Value.noConfusion h)
  | .vstr _, .vnum _ => .isFalse (fun h => Value.noConfusion h)
  | .vstr _, .varr _ => .isFalse (fun h => Value.noConfusion h)
  | .vstr _, .vobj _ => .isFalse (fun h => Value.noConfusion h)
  | .varr _, .vnull => .isFalse (fun h => Value.noConfusion h)
  | .varr _, .vbool _ => .isFalse (fun h => Value.noConfusion h)
  | .varr _, .vnum _ => .isFalse (fun h => Value.noConfusion h)
  | .varr _, .vstr _ => .isFalse (fun h => Value.noConfusion h)
  | .varr _, .vobj _ => .isFalse (fun h => Value.noConfusion h)
  | .vobj _, .vnull => .isFalse (fun h => Value.noConfusion h)
  | .vobj _, .vbool _ => .isFalse (fun h => Value.noConfusion h)
  | .vobj _, .vnum _ => .isFalse (fun h => Value.noConfusion h)
  | .vobj _, .vstr _ => .isFalse (fun h => Value.noConfusion h)
  | .vobj _, .varr _ => .isFalse (fun h => Value.noConfusion h)

/-- Decidable equality on lists of values. -/
def Value.decEqList : (a b : List Value) → Decidable (a = b)
  | [], [] => .isTrue rfl
  | [], _ :: _ => .isFalse (fun h => List.noConfusion h)
  | _ :: _, [] => .isFalse (fun h => List.noConfusion h)
  | a :: as, b :: bs =>
    match Value.decEq a b, Value.decEqList as bs with
    | .isTrue h1, .isTrue h2 => .isTrue (by rw [h1, h2])
    | .isFalse h1, _ => .isFalse (fun he => h1 (by cases he; rfl))
    | _, .isFalse h2 => .isFalse (fun he => h2 (by cases he; rfl))

/-- Decidable equality on object field lists. -/
def Value.decEqObj : (a b : List (String × Value)) → Decidable (a = b)
  | [], [] => .isTrue rfl
  | [], _ :: _ => .isFalse (fun h => List.noConfusion h)
  | _ :: _, [] => .isFalse (fun h => List.noConfusion h)
  | (k, v) :: as, (k', v') :: bs =>
    match instDecidableEqString k k', Value.decEq v v', Value.decEqObj as bs with
    | .isTrue h0, .isTrue h1, .isTrue h2 => .isTrue (by rw [h0, h1, h2])
    | .isFalse h0, _, _ => .isFalse (fun he => h0 (by cases he; rfl))
    | _, .isFalse h1, _ => .isFalse (fun he => h1 (by cases he; rfl))
    | _, _, .isFalse h2 => .isFalse (fun he => h2 (by cases he; rfl))

end

instance : DecidableEq Value := Value.decEq

/-- A row of a dataframe: an association list from column name to value.
Lookups take the first binding, later bindings never shadow earlier ones. -/
abbrev Row := List (String × Value)

/-- Value of column `c` in row `r`; missing columns read as SQL NULL. -/
def getCol (r : Row) (c : String) : Value :=
  (List.lookup c r).getD Value.vnull

/-- A dataframe: an ordered column list over a list of rows. -/
structure Table where
  cols : List String
  rows : List Row
deriving DecidableEq

/-- `df.select(cs)`: project the named columns, in the given order. -/
def Table.select (df : Table) (cs : List String) : Table :=
  ⟨cs, df.rows.map (fun r => cs.map (fun c => (c, getCol r c)))⟩

/-- `df.distinct()`: deduplicate rows. -/
def Table.distinct (df : Table) : Table :=
  ⟨df.cols, df.rows.dedup⟩

/-- `df.drop(cs)`: remove the named columns. -/
def Table.dropCols (df : Table) (cs : List String) : Table :=
  ⟨df.cols.filter (fun c => !(cs.contains c)),
   df.rows.map (fun r => r.filter (fun p => !(cs.contains p.1)))⟩

/-- `df.filter(p)`: keep the rows satisfying `p`. -/
def Table.filterRows (df : Table) (p : Row → Bool) : Table :=
  ⟨df.cols, df.rows.filter p⟩

/-- `df.with_column(name, f)`: add a computed column; an existing column
of the same name is replaced (Snowpark semantics). -/
def Table.withColumn (df : Table) (name : String) (f : Row → Value) : Table :=
  ⟨(df.cols.filter (fun c => !(c == name))) ++ [name],
   df.rows.map (fun r => (r.filter (fun p => !(p.1 == name))) ++ [(name, f r)])⟩

/-- `df.with_columns(names, values)`: sequential `with_column` additions. -/
def Table.withColumns (df : Table) (ncs : List (String × (Row → Value))) : Table :=
  ncs.foldl (fun d p => d.withColumn p.1 p.2) df

/-- `df.with_column_renamed(old, new)`. -/
def Table.renamed (df : Table) (old new : String) : Table :=
  ⟨df.cols.map (fun c => if c == old then new else c),
   df.rows.map (fun r => r.map (fun p => if p.1 == old then (new, p.2) else p))⟩

mutual

/-- Serialization of a value to a string, modelling the engine's cast of a
VARIANT to STRING; only its value-determinism matters to the program (the
string feeds the content hash). -/
def Value.serialize : Value → String
  | .vnull => "null"
  | .vbool b => toString b
  | .vnum n => toString n
  | .vstr s => "\"" ++ s ++ "\""
  | .varr xs => "[" ++ Value.serializeList xs ++ "]"
  | .vobj fs => "\x7b" ++ Value.serializeObj fs ++ "\x7d"

/-- Comma-separated serialization of array elements. -/
def Value.serializeList : List Value → String
  | [] => ""
  | [x] => x.serialize
  | x :: y :: xs => x.serialize ++ "," ++ Value.serializeList (y :: xs)

/-- Comma-separated serialization of object fields. -/
def Value.serializeObj : List (String × Value) → String
  | [] => ""
  | [(k, v)] => "\"" ++ k ++ "\":" ++ v.serialize
  | (k, v) :: q :: fs =>
    "\"" ++ k ++ "\":" ++ v.serialize ++ "," ++ Value.serializeObj (q :: fs)

end

/-- Engine-provided `sha2(·, 256)` content hash, modelled as a tagging
function of the serialized input: the program relies only on the hash
being a deterministic function of the hashed string. -/
def sha2_256 (s : String) : String := "sha256:" ++ s

/-- `typeof` of a VARIANT value, as reported by the engine. -/
def typeofVal : Value → String
  | .vnull => "NULL_VALUE"
  | .vbool _ => "BOOLEAN"
  | .vnum _ => "INTEGER"
  | .vstr _ => "VARCHAR"
  | .varr _ => "ARRAY"
  | .vobj _ => "OBJECT"

/-- Rows produced by the engine's `flatten` in ARRAY mode with
`outer=True` for one input value, as `(INDEX, VALUE)` pairs: one row per
element of a non-empty array, and a single all-null row for an empty
array, a null, or a non-array value. -/
def flattenArrayOut : Value → List (Value × Value)
  | .varr (x :: xs) =>
    (List.enum (x :: xs)).map (fun p => (Value.vnum p.1, p.2))
  | _ => [(Value.vnull, Value.vnull)]

/-- Rows produced by the engine's `flatten` in OBJECT mode with
`outer=True` for one input value, as `(KEY, VALUE)` pairs: one row per
field of a non-empty object, and a single all-null row otherwise. -/
def flattenObjectOut : Value → List (Value × Value)
  | .vobj (p :: ps) =>
    (p :: ps).map (fun q => (Value.vstr q.1, q.2))
  | _ => [(Value.vnull, Value.vnull)]

/-- `df.join_table_function('flatten', input=col, mode='ARRAY', outer=True)`:
each row is joined with the flatten rows of its `inputCol` value; the
bookkeeping columns SEQ/KEY/PATH whose contents the program never reads
are modelled as nulls. -/
def Table.joinFlattenArray (df : Table) (inputCol : String) : Table :=
  ⟨df.cols ++ ["SEQ", "KEY", "PATH", "INDEX", "VALUE", "THIS"],
   df.rows.flatMap (fun r =>
     (flattenArrayOut (getCol r inputCol)).map (fun iv =>
       r ++ [("SEQ", Value.vnull), ("KEY", Value.vnull), ("PATH", Value.vnull),
             ("INDEX", iv.1), ("VALUE", iv.2), ("THIS", getCol r inputCol)]))⟩

/-- `df.join_table_function('flatten', input=col, mode='OBJECT', outer=True)`:
like `joinFlattenArray` but per object field, with the field name in KEY. -/
def Table.joinFlattenObject (df : Table) (inputCol : String) : Table :=
  ⟨df.cols ++ ["SEQ", "KEY", "PATH", "INDEX", "VALUE", "THIS"],
   df.rows.flatMap (fun r =>
     (flattenObjectOut (getCol r inputCol)).map (fun kv =>
       r ++ [("SEQ", Value.vnull), ("KEY", kv.1), ("PATH", Value.vnull),
             ("INDEX", Value.vnull), ("VALUE", kv.2), ("THIS", getCol r inputCol)]))⟩

/-- `DROPPED_COLS` (source line 37): flatten bookkeeping columns dropped
after every explode. -/
def DROPPED_COLS : List String := ["SEQ", "KEY", "PATH", "INDEX", "THIS"]

/-- `flatten_array` (source lines 41-62): project the hash column and the
array field, deduplicate the pairs, explode each remaining array with
outer semantics, drop the bookkeeping columns and the original array
column, and rename VALUE back to the array field's name. -/
def flatten_array (df : Table) (array_field : String) : Table :=
  let hash_field := array_field ++ "_SHA256"
  let unique_arr_instances := (df.select [hash_field, array_field]).distinct
  ((unique_arr_instances.joinFlattenArray array_field).dropCols
      (DROPPED_COLS ++ [array_field])).renamed "VALUE" array_field

/-- Subfield projection `F.col(obj_field)[key]`: null on non-objects and
on missing keys. -/
def objIndex (v : Value) (k : String) : Value :=
  match v with
  | .vobj fs => (List.lookup k fs).getD Value.vnull
  | _ => Value.vnull

/-- Key discovery of `expand_object_subfields` (source lines 75-86):
distinct values of the object field are exploded in OBJECT mode, the KEY
column is projected, nulls are filtered out, and the keys deduplicated. -/
def discoverKeys (df : Table) (obj_field : String) : List String :=
  let keyTab :=
    (((((df.select [obj_field]).distinct).joinFlattenObject obj_field).select
        ["KEY"]).filterRows (fun r => !(getCol r "KEY" == Value.vnull))).distinct
  keyTab.rows.map (fun r =>
    match getCol r "KEY" with
    | .vstr s => s
    | _ => "")

/-- Errors raised by the program, tagged with the Python exception class. -/
inductive PyError where
  | typeError (msg : String)
  | valueError (msg : String)
deriving DecidableEq

/-- The exact message of the `raise TypeError(...)` at source line 139:
the `%s` placeholder is never interpolated, so the literal stays. -/
def ambiguousMsg : String :=
  "\"%s\" does not have a unique dtype of either ARRAY or OBJECT."

/-- The message of the `ValueError` Python raises when
`col_subfield_names, col_subfield_values = zip(*[])` unpacks an empty
iterator (source lines 88-90 with an empty key list). -/
def unpackMsg : String := "not enough values to unpack (expected 2, got 0)"

/-- `expand_object_subfields` (source lines 65-94): discover the object
field's subfield keys and add one projected column `field__key` per key.
With zero discovered keys the `zip(*[...])` destructuring raises a
`ValueError`, modelled as the error case. -/
def expand_object_subfields (df : Table) (obj_field : String) :
    Except PyError Table :=
  let keys := discoverKeys df obj_field
  if keys.isEmpty then
    .error (.valueError unpackMsg)
  else
    .ok (df.withColumns (keys.map (fun k =>
      (obj_field ++ "__" ++ k, fun r => objIndex (getCol r obj_field) k))))

/-- Substring test, modelling Python's `x in col` on strings. -/
def strContains (s pat : String) : Bool :=
  s.toList.tails.any (fun t => pat.toList.isPrefixOf t)

/-- Bookkeeping columns excluded from processing (source line 118):
any column whose name contains `SHA256` or `INGESTION_CTRL`. -/
def isBookkeeping (c : String) : Bool :=
  strContains c "SHA256" || strContains c "INGESTION_CTRL"

/-- `cur_unprocessed_fields` (source lines 116-120): columns that are not
bookkeeping and not yet in the process-wide processed set.  The Python
set comprehension iterates in unspecified order; the model fixes the
table's column order, a determinization the spec itself declares
irrelevant to correctness. -/
def unprocessedFields (df : Table) (processed : List String) : List String :=
  df.cols.filter (fun c => !(isBookkeeping c) && !(processed.contains c))

/-- `processed_fields.add(c)`: the Python set add, on the model's list. -/
def addProc (l : List String) (c : String) : List String :=
  if l.contains c then l else l ++ [c]

/-- Type detection (source lines 129-137): distinct values of the field,
limited to the first `detect` instances, mapped through `typeof`,
deduplicated, and restricted to ARRAY/OBJECT. -/
def typeDetect (df : Table) (field : String) (detect : Nat) : List String :=
  let target := (df.select [field]).distinct
  (((target.rows.take detect).map (fun r => typeofVal (getCol r field))).dedup).filter
    (fun t => t == "ARRAY" || t == "OBJECT")

/-- The hash column added before delegating to `flatten_array` (source
lines 145-149): `sha2(cast(field as string), 256)` under the name
`field_SHA256`. -/
def addArrayHash (df : Table) (field : String) : Table :=
  df.withColumn (field ++ "_SHA256")
    (fun r => Value.vstr (sha2_256 (Value.serialize (getCol r field))))

/-- State of the loop over `cur_unprocessed_fields` (source lines
126-160): the mutated dataframe, the process-wide processed set, and the
`new_dfs` child map scheduled for later recursion. -/
structure LoopState where
  df : Table
  processed : List String
  newDfs : List (String × Table)
deriving DecidableEq

/-- One iteration of the field loop (source lines 126-160).  Zero
ARRAY/OBJECT kinds: mark processed.  Exactly one: transform (hash +
flatten for ARRAY, expand + mark for OBJECT) and drop the field.  More
than one: raise the (unformatted) `TypeError`.  The `[_]` fallback is
unreachable because the detector only reports ARRAY or OBJECT. -/
def processField (detect : Nat) (ls : LoopState) (cur : String) :
    Except PyError LoopState :=
  match typeDetect ls.df cur detect with
  | [] => .ok ⟨ls.df, addProc ls.processed cur, ls.newDfs⟩
  | ["ARRAY"] =>
    let df1 := addArrayHash ls.df cur
    let newDf := flatten_array df1 cur
    .ok ⟨df1.dropCols [cur], ls.processed, ls.newDfs ++ [(cur, newDf)]⟩
  | ["OBJECT"] =>
    match expand_object_subfields ls.df cur with
    | .error e => .error e
    | .ok df1 => .ok ⟨df1.dropCols [cur], addProc ls.processed cur, ls.newDfs⟩
  | [_] => .ok ⟨ls.df.dropCols [cur], ls.processed, ls.newDfs⟩
  | _ => .error (.typeError ambiguousMsg)

/-- The whole field loop, threading `LoopState` left to right. -/
def foldFields (detect : Nat) : List String → LoopState → Except PyError LoopState
  | [], ls => .ok ls
  | c :: cs, ls =>
    match processField detect ls c with
    | .error e => .error e
    | .ok ls' => foldFields detect cs ls'

/-- One record of the ghost call trace: lineage path, incremented counter,
processed set at entry, and the computed unprocessed field list. -/
structure CallLog where
  path : String
  counter : Nat
  procAtEntry : List String
  unproc : List String
deriving DecidableEq

/-- Process-wide mutable state of a run: the `processed_fields` set and
the `INTERNAL_RESULT_*` globals (an insertion-ordered map), plus a ghost
trace of calls used only to state invariants — it never influences the
computation. -/
structure DState where
  processed : List String
  results : List (String × Table)
  trace : List CallLog
deriving DecidableEq

/-- Insert-with-overwrite on an insertion-ordered map, modelling both the
`globals()[name] = df` assignment and `save_as_table(..., mode='overwrite')`. -/
def recordResult (m : List (String × Table)) (k : String) (v : Table) :
    List (String × Table) :=
  if m.any (fun p => p.1 == k) then
    m.map (fun p => if p.1 == k then (k, v) else p)
  else
    m ++ [(k, v)]

/-- Per-run configuration: sample size, `max_recursive_calls`, and the
output table name prefix/suffix of the enclosing handler. -/
structure Config where
  detect : Nat
  maxCalls : Nat
  pre : String
  suf : String

/-- The loop over `new_dfs` (source lines 168-173), abstracted over the
recursive call `f`: recurse into each child dataframe with its field
name as the lineage path. -/
def goChildren (f : Table → String → Nat → DState → Except PyError DState)
    (counter : Nat) : List (String × Table) → DState → Except PyError DState
  | [], st => .ok st
  | nd :: rest, st =>
    match f nd.2 nd.1 counter st with
    | .error e => .error e
    | .ok st' => goChildren f counter rest st'

/-- `model_nested_JSON_objects` (source lines 99-173), fuel-indexed.  The
fuel only realizes termination of the embedding: for `maxCalls ≥ 1` and a
start counter below `maxCalls`, fuel `maxCalls` is never exhausted
because every call increments the counter by one and returns at
`counter == maxCalls`.  A call increments the counter, computes the
unprocessed fields, and returns at once (recording nothing) when that
list is empty or the counter equals `maxCalls`; otherwise it runs the
field loop, records the reduced dataframe under
`pre ++ parentPath ++ suf`, recurses on the same path, then recurses
into each scheduled child with the child's field name as path. -/
def modelRec (cfg : Config) : Nat → Table → String → Nat → DState →
    Except PyError DState
  | 0, _, _, _, st => .ok st
  | fuel + 1, df, parentPath, counter, st =>
    let counter' := counter + 1
    let unproc := unprocessedFields df st.processed
    let st1 : DState :=
      ⟨st.processed, st.results,
       st.trace ++ [⟨parentPath, counter', st.processed, unproc⟩]⟩
    if unproc.isEmpty || counter' == cfg.maxCalls then
      .ok st1
    else
      match foldFields cfg.detect unproc ⟨df, st1.processed, []⟩ with
      | .error e => .error e
      | .ok ls =>
        let st2 : DState :=
          ⟨ls.processed,
           recordResult st1.results (cfg.pre ++ parentPath ++ cfg.suf) ls.df,
           st1.trace⟩
        match modelRec cfg fuel ls.df parentPath counter' st2 with
        | .error e => .error e
        | .ok st3 => goChildren (modelRec cfg fuel) counter' ls.newDfs st3

/-- `snowpark_main_handler` (source lines 9-183): run the decomposition
from lineage path ENTRY with counter 0 and empty process state, then
collect the recorded results and persist each into the destination
schema with overwrite semantics.  Returns the result map and the schema
contents after persistence. -/
def snowpark_main_handler (df : Table) (maxCalls : Nat) (pre suf : String)
    (detect : Nat) (schema0 : List (String × Table)) :
    Except PyError (List (String × Table) × List (String × Table)) :=
  match modelRec ⟨detect, maxCalls, pre, suf⟩ maxCalls df "ENTRY" 0 ⟨[], [], []⟩ with
  | .error e => .error e
  | .ok st => .ok (st.results, st.results.foldl (fun s p => recordResult s p.1 p.2) schema0)

/-- The destination schema after persisting `results` (source lines
179-182): each table written under its name with overwrite mode. -/
def persistAll (schema0 : List (String × Table))
    (results : List (String × Table)) : List (String × Table) :=
  results.foldl (fun s p => recordResult s p.1 p.2) schema0

/-! ## Association list and dedup helpers -/

theorem lookup_append {β : Type} (c : String) (l1 l2 : List (String × β)) :
    List.lookup c (l1 ++ l2) = (List.lookup c l1).or (List.lookup c l2) := by
  induction l1 with
  | nil => simp [List.lookup]
  | cons p l ih =>
    obtain ⟨k, v⟩ := p
    by_cases hk : c = k
    · subst hk; simp [List.lookup]
    · have hbeq : (c == k) = false := by simp [hk]
      simp [List.lookup, hbeq, ih]

theorem lookup_filterKey_pos {β : Type} (c : String) (q : String → Bool)
    (l : List (String × β)) (h : q c = true) :
    List.lookup c (l.filter (fun p => q p.1)) = List.lookup c l := by
  induction l with
  | nil => rfl
  | cons p l ih =>
    obtain ⟨k, v⟩ := p
    by_cases hk : c = k
    · subst hk; simp [List.filter_cons, h, List.lookup]
    · have hbeq : (c == k) = false := by simp [hk]
      by_cases hq : q k = true
      · simp [List.filter_cons, hq, List.lookup, hbeq, ih]
      · simp only [Bool.not_eq_true] at hq
        simp [List.filter_cons, hq, List.lookup, hbeq, ih]

theorem lookup_filterKey_neg {β : Type} (c : String) (q : String → Bool)
    (l : List (String × β)) (h : q c = false) :
    List.lookup c (l.filter (fun p => q p.1)) = none := by
  induction l with
  | nil => rfl
  | cons p l ih =>
    obtain ⟨k, v⟩ := p
    by_cases hk : c = k
    · subst hk; simp [List.filter_cons, h, ih]
    · have hbeq : (c == k) = false := by simp [hk]
      by_cases hq : q k = true
      · simp [List.filter_cons, hq, List.lookup, hbeq, ih]
      · simp only [Bool.not_eq_true] at hq
        simp [List.filter_cons, hq, ih]

/-- Reading back the column just set by `withColumn`'s row transform. -/
theorem getCol_setCol_self (r : Row) (n : String) (v : Value) :
    getCol ((r.filter (fun p => !(p.1 == n))) ++ [(n, v)]) n = v := by
  unfold getCol
  rw [lookup_append, lookup_filterKey_neg n (fun k => !(k == n)) r (by simp)]
  simp [List.lookup]

/-- `withColumn`'s row transform does not disturb other columns. -/
theorem getCol_setCol_ne (r : Row) (n c : String) (v : Value) (h : c ≠ n) :
    getCol ((r.filter (fun p => !(p.1 == n))) ++ [(n, v)]) c = getCol r c := by
  unfold getCol
  rw [lookup_append, lookup_filterKey_pos c (fun k => !(k == n)) r (by simp [h])]
  have hbeq : (c == n) = false := by simp [h]
  simp [List.lookup, hbeq]

/-- Deduplicating a non-empty constant list gives the singleton. -/
theorem dedup_eq_single {α : Type} [DecidableEq α] (a : α) (l : List α)
    (hne : l ≠ []) (h : ∀ x ∈ l, x = a) : l.dedup = [a] := by
  induction l with
  | nil => exact absurd rfl hne
  | cons x xs ih =>
    have hx : x = a := h x (by simp)
    subst hx
    cases xs with
    | nil => simp
    | cons y ys =>
      have hy : y = x := (h y (by simp)).trans ((h x (by simp)).symm)
      have hmem : x ∈ y :: ys := by rw [hy]; simp
      rw [List.dedup_cons_of_mem hmem]
      exact ih (by simp) (fun z hz => h z (by simp [hz]))

/-- Appending a suffix of length 7 changes a string. -/
theorem ne_append_sha (f : String) : f ≠ f ++ "_SHA256" := by
  intro h
  have hlen := congrArg String.length h
  rw [String.length_append] at hlen
  have h7 : ("_SHA256" : String).length = 7 := rfl
  omega

/-! ## Theorems -/

/-- A nested input for the depth-cap scenario: one column holding arrays. -/
def c1Table : Table := ⟨["A"], [[("A", Value.varr [Value.vnum 1])]]⟩

/-- C1 (counterexample): with `max_recursive_calls = 1` on a table that
still has a nested ARRAY field, the run completes without error but the
result mapping is EMPTY — the input table is not recorded as a terminal
table under any lineage path, contradicting the claim that the input is
returned unmodified as the sole terminal table. -/
theorem c1_depth_cap_counterexample :
    snowpark_main_handler c1Table 1 "" "" 50 [] = .ok ([], []) ∧
    typeDetect c1Table "A" 50 = ["ARRAY"] := by
  constructor <;> rfl

/-- C1 (amended): with `max_recursive_calls = 1` the terminal check fires
on the very first call, before the recording step, so the run completes
normally (soft stop, no error) with an EMPTY result mapping for every
input table; nothing is persisted. -/
theorem c1_depth_cap_returns_empty (df : Table) (pre suf : String)
    (detect : Nat) (schema0 : List (String × Table)) :
    snowpark_main_handler df 1 pre suf detect schema0 = .ok ([], schema0) := by
  simp [snowpark_main_handler, modelRec, persistAll]

/-- A field whose sampled values contain both an ARRAY and an OBJECT. -/
def c2Table : Table :=
  ⟨["MYFIELD"],
   [[("MYFIELD", Value.varr [Value.vnum 1])],
    [("MYFIELD", Value.vobj [("K", Value.vnum 1)])]]⟩

/-- C2 (code evaluated at the failing input): an ambiguous field makes the
whole run fail with the `TypeError`, which propagates to the top-level
caller unretried and unmodified, and no partial result mapping is
returned — but the message is the literal format string
`"%s" does not have a unique dtype of either ARRAY or OBJECT.`: the
`raise TypeError('...%s...')` at source line 139 never interpolates the
field name, so the message does not name the offending field `MYFIELD`. -/
theorem c2_ambiguous_error_message_unformatted :
    snowpark_main_handler c2Table 100 "" "" 50 [] =
      .error (.typeError ambiguousMsg) ∧
    strContains ambiguousMsg "MYFIELD" = false := by
  constructor <;> rfl

/-- An object column whose every value is the empty object. -/
def c10Table : Table := ⟨["OBJ"], [[("OBJ", Value.vobj [])]]⟩

/-- C10: whenever key discovery for an object field returns no non-null
keys, `expand_object_subfields` fails with the unpacking `ValueError`
(the `zip(*[])` destructuring of an empty list), and on a concrete table
whose object column holds only empty objects this aborts the entire run
instead of returning the table with zero new columns. -/
theorem c10_empty_object_unpack_error :
    (∀ df f, discoverKeys df f = [] →
      expand_object_subfields df f = .error (.valueError unpackMsg)) ∧
    snowpark_main_handler c10Table 100 "" "" 50 [] =
      .error (.valueError unpackMsg) := by
  refine ⟨fun df f h => ?_, by rfl⟩
  simp [expand_object_subfields, h]

/-- Witness for C10: the general part applied at the concrete table. -/
theorem c10_empty_object_unpack_error_witness :
    expand_object_subfields c10Table "OBJ" = .error (.valueError unpackMsg) :=
  c10_empty_object_unpack_error.1 c10Table "OBJ" (by rfl)

/-- Two rows holding the same (empty) array value. -/
def c4Table : Table :=
  ⟨["AR"], [[("AR", Value.varr [])], [("AR", Value.varr [])]]⟩

/-- C4 (counterexample): when the shared array value is the empty array,
the child table after exploding has 1 row (the outer explode's null row),
not 0 = (number of elements) rows, so "exactly (number of elements) rows"
fails as stated. -/
theorem c4_empty_array_counterexample :
    c4Table.rows.all (fun r => getCol r "AR" == Value.varr []) = true ∧
    (flatten_array (addArrayHash c4Table "AR") "AR").rows.length = 1 ∧
    (Value.varr []) = Value.varr ([] : List Value) := by
  refine ⟨by rfl, by rfl, rfl⟩

/-- C4 (amended): for a table whose array field holds one shared array
value in every row, the projected (hash, array) pairs deduplicate to a
single distinct row before exploding, and the child table after
exploding has exactly (number of elements) rows for a non-empty shared
array — one null row when the shared array is empty — never
N × (elements). -/
theorem c4_array_dedup (df : Table) (f : String) (l : List Value)
    (hne : df.rows ≠ [])
    (hall : ∀ r ∈ df.rows, getCol r f = Value.varr l) :
    (((addArrayHash df f).select [f ++ "_SHA256", f]).distinct).rows.length = 1 ∧
    (flatten_array (addArrayHash df f) f).rows.length =
      if l.isEmpty then 1 else l.length := by
  have hfh : f ≠ f ++ "_SHA256" := ne_append_sha f
  have hsel : ((addArrayHash df f).select [f ++ "_SHA256", f]).rows
      = df.rows.map (fun _ =>
          ([(f ++ "_SHA256", Value.vstr (sha2_256 (Value.serialize (Value.varr l)))),
            (f, Value.varr l)] : Row)) := by
    show (df.rows.map _).map _ = _
    rw [List.map_map]
    refine List.map_congr_left (fun r hr => ?_)
    simp only [Function.comp, addArrayHash, Table.withColumn, List.map_cons, List.map_nil]
    rw [getCol_setCol_self, getCol_setCol_ne r _ f _ hfh, hall r hr]
  have hdedup : (((addArrayHash df f).select [f ++ "_SHA256", f]).distinct).rows
      = [[(f ++ "_SHA256", Value.vstr (sha2_256 (Value.serialize (Value.varr l)))),
          (f, Value.varr l)]] := by
    show (((addArrayHash df f).select [f ++ "_SHA256", f]).rows).dedup = _
    rw [hsel]
    refine dedup_eq_single _ _ ?_ ?_
    · simpa using hne
    · intro x hx
      rcases List.mem_map.1 hx with ⟨r, _, hr⟩
      exact hr.symm
  refine ⟨by simp [hdedup], ?_⟩
  -- the flatten pipeline preserves row count through drop and rename
  have hgc : getCol
      [(f ++ "_SHA256", Value.vstr (sha2_256 (Value.serialize (Value.varr l)))),
       (f, Value.varr l)] f = Value.varr l := by
    have hbf : (f == f ++ "_SHA256") = false := by simp [hfh]
    simp [getCol, List.lookup, hbf]
  show ((((((addArrayHash df f).select [f ++ "_SHA256", f]).distinct).joinFlattenArray
      f).dropCols (DROPPED_COLS ++ [f])).renamed "VALUE" f).rows.length = _
  simp only [Table.renamed, Table.dropCols, Table.joinFlattenArray, hdedup,
    List.length_map, List.flatMap_cons, List.flatMap_nil, List.append_nil, hgc]
  cases l with
  | nil => simp [flattenArrayOut]
  | cons x xs => simp [flattenArrayOut]

/-- Three rows holding the same two-element array value. -/
def c4TableW : Table :=
  ⟨["AR"],
   [[("AR", Value.varr [Value.vnum 1, Value.vnum 2])],
    [("AR", Value.varr [Value.vnum 1, Value.vnum 2])],
    [("AR", Value.varr [Value.vnum 1, Value.vnum 2])]]⟩

/-- Witness for C4: three rows sharing a two-element array give one
distinct (hash, array) pair and a two-row child, not six rows. -/
theorem c4_array_dedup_witness :
    (((addArrayHash c4TableW "AR").select ["AR" ++ "_SHA256", "AR"]).distinct).rows.length = 1 ∧
    (flatten_array (addArrayHash c4TableW "AR") "AR").rows.length =
      if [Value.vnum 1, Value.vnum 2].isEmpty then 1
      else [Value.vnum 1, Value.vnum 2].length :=
  c4_array_dedup c4TableW "AR" [Value.vnum 1, Value.vnum 2] (by decide)
    (by intro r hr; fin_cases hr <;> rfl)

/-- Appending `__` and a key to a field name changes it. -/
theorem ne_append_sub (f k : String) : f ≠ f ++ "__" ++ k := by
  intro h
  have hlen := congrArg String.length h
  rw [String.length_append, String.length_append] at hlen
  have h2 : ("__" : String).length = 2 := rfl
  omega

/-- Adding a fresh column appends its name to the column list. -/
theorem withColumn_cols_of_fresh (t : Table) (n : String) (g : Row → Value)
    (h : n ∉ t.cols) : (t.withColumn n g).cols = t.cols ++ [n] := by
  show t.cols.filter _ ++ [n] = t.cols ++ [n]
  rw [List.filter_eq_self.2 (fun a ha => by
    have hax : a ≠ n := fun e => h (e ▸ ha)
    simp [hax])]

/-- C5: for an object field whose discovered keys are exactly `{ka, kb}`
(and whose generated column names are fresh), expansion succeeds and
yields exactly the two new columns `f__ka` and `f__kb` appended to the
column list, with the same number of rows; row by row the new columns
hold the subfield projections and every other column is unchanged; and
after the caller's drop step the original object column is gone.  Since
the returned table also has unchanged values in the input columns,
re-reading it gives back the input — the claim's idempotence reading. -/
theorem c5_object_expansion (df : Table) (f ka kb : String)
    (hkeys : discoverKeys df f = [ka, kb])
    (h1 : (f ++ "__" ++ ka) ∉ df.cols)
    (h2 : (f ++ "__" ++ kb) ∉ df.cols)
    (hne : (f ++ "__" ++ ka) ≠ (f ++ "__" ++ kb)) :
    ∃ df', expand_object_subfields df f = .ok df' ∧
      df'.cols = df.cols ++ [f ++ "__" ++ ka, f ++ "__" ++ kb] ∧
      df'.rows.length = df.rows.length ∧
      List.Forall₂ (fun r r' =>
        getCol r' (f ++ "__" ++ ka) = objIndex (getCol r f) ka ∧
        getCol r' (f ++ "__" ++ kb) = objIndex (getCol r f) kb ∧
        ∀ c, c ≠ f ++ "__" ++ ka → c ≠ f ++ "__" ++ kb → getCol r' c = getCol r c)
        df.rows df'.rows ∧
      f ∉ (df'.dropCols [f]).cols := by
  have hfa : f ≠ f ++ "__" ++ ka := ne_append_sub f ka
  have hfb : f ≠ f ++ "__" ++ kb := ne_append_sub f kb
  refine ⟨(df.withColumn (f ++ "__" ++ ka) (fun r => objIndex (getCol r f) ka)).withColumn
      (f ++ "__" ++ kb) (fun r => objIndex (getCol r f) kb), ?_, ?_, ?_, ?_, ?_⟩
  · simp [expand_object_subfields, hkeys, Table.withColumns]
  · have e1 : (df.withColumn (f ++ "__" ++ ka)
        (fun r => objIndex (getCol r f) ka)).cols = df.cols ++ [f ++ "__" ++ ka] :=
      withColumn_cols_of_fresh _ _ _ h1
    have hn2 : (f ++ "__" ++ kb) ∉ (df.withColumn (f ++ "__" ++ ka)
        (fun r => objIndex (getCol r f) ka)).cols := by
      rw [e1]
      simp only [List.mem_append, List.mem_singleton]
      rintro (hmem | hmem)
      · exact h2 hmem
      · exact hne hmem.symm
    rw [withColumn_cols_of_fresh _ _ _ hn2, e1, List.append_assoc]
    rfl
  · simp [Table.withColumn, List.length_map]
  · simp only [Table.withColumn, List.map_map]
    rw [List.forall₂_map_right_iff, List.forall₂_same]
    intro r hr
    simp only [Function.comp]
    refine ⟨?_, ?_, ?_⟩
    · rw [getCol_setCol_ne _ _ _ _ hne, getCol_setCol_self]
    · rw [getCol_setCol_self, getCol_setCol_ne _ _ _ _ hfa]
    · intro c hc1 hc2
      rw [getCol_setCol_ne _ _ _ _ hc2, getCol_setCol_ne _ _ _ _ hc1]
  · intro hmem
    rcases List.mem_filter.1 hmem with ⟨_, hp⟩
    simp at hp

/-- Pointwise congruence for `flatMap` over list members. -/
theorem flatMap_congr_mem {α β : Type} (l : List α) (f g : α → List β)
    (h : ∀ a ∈ l, f a = g a) : l.flatMap f = l.flatMap g := by
  induction l with
  | nil => rfl
  | cons x xs ih =>
    simp only [List.flatMap_cons]
    rw [h x (by simp), ih (fun a ha => h a (by simp [ha]))]

/-- A hash column name differs from every string shorter than 7. -/
theorem sha_ne_of_short (f s : String) (hs : s.length < 7) :
    f ++ "_SHA256" ≠ s := by
  intro h
  have hlen := congrArg String.length h
  rw [String.length_append] at hlen
  have h7 : ("_SHA256" : String).length = 7 := rfl
  omega

/-- A concrete two-key object table for the C5 witness. -/
def c5Table : Table :=
  ⟨["OBJ", "X"],
   [[("OBJ", Value.vobj [("a", Value.vnum 1), ("b", Value.vnum 2)]), ("X", Value.vnum 7)],
    [("OBJ", Value.vobj [("a", Value.vnum 3), ("b", Value.vnum 4)]), ("X", Value.vnum 8)]]⟩

/-- Witness for C5: the expansion facts instantiated on a concrete table
whose object column has discovered keys `a` and `b`. -/
theorem c5_object_expansion_witness :
    ∃ df', expand_object_subfields c5Table "OBJ" = .ok df' ∧
      df'.cols = c5Table.cols ++ ["OBJ" ++ "__" ++ "a", "OBJ" ++ "__" ++ "b"] ∧
      df'.rows.length = c5Table.rows.length ∧
      List.Forall₂ (fun r r' =>
        getCol r' ("OBJ" ++ "__" ++ "a") = objIndex (getCol r "OBJ") "a" ∧
        getCol r' ("OBJ" ++ "__" ++ "b") = objIndex (getCol r "OBJ") "b" ∧
        ∀ c, c ≠ "OBJ" ++ "__" ++ "a" → c ≠ "OBJ" ++ "__" ++ "b" →
          getCol r' c = getCol r c)
        c5Table.rows df'.rows ∧
      "OBJ" ∉ (df'.dropCols ["OBJ"]).cols :=
  c5_object_expansion c5Table "OBJ" "a" "b" (by rfl) (by decide) (by decide) (by decide)

/-- C6: for any input table, the array flattener produces exactly the
columns `[f_SHA256, f]` — the explode bookkeeping columns SEQ, KEY,
PATH, INDEX, THIS and the original array column are discarded and the
exploded VALUE is renamed back to `f` — and its rows are precisely one
row per flatten output element of each distinct (hash, array) pair, each
row carrying the owning hash; outer semantics make an empty or null
array contribute a single row with a null element. -/
theorem c6_flatten_array_semantics (df : Table) (f : String)
    (hf : f ∉ (["SEQ", "KEY", "PATH", "INDEX", "THIS", "VALUE"] : List String)) :
    (flatten_array df f).cols = [f ++ "_SHA256", f] ∧
    (flatten_array df f).rows =
      (((df.select [f ++ "_SHA256", f]).distinct).rows).flatMap (fun r =>
        (flattenArrayOut (getCol r f)).map (fun iv =>
          ([(f ++ "_SHA256", getCol r (f ++ "_SHA256")), (f, iv.2)] : Row))) ∧
    (∀ v, v = Value.varr [] ∨ v = Value.vnull →
      flattenArrayOut v = [(Value.vnull, Value.vnull)]) := by
  have hp1 : f ++ "_SHA256" ≠ "SEQ" := sha_ne_of_short f "SEQ" (by decide)
  have hp2 : f ++ "_SHA256" ≠ "KEY" := sha_ne_of_short f "KEY" (by decide)
  have hp3 : f ++ "_SHA256" ≠ "PATH" := sha_ne_of_short f "PATH" (by decide)
  have hp4 : f ++ "_SHA256" ≠ "INDEX" := sha_ne_of_short f "INDEX" (by decide)
  have hp5 : f ++ "_SHA256" ≠ "THIS" := sha_ne_of_short f "THIS" (by decide)
  have hp6 : f ++ "_SHA256" ≠ "VALUE" := sha_ne_of_short f "VALUE" (by decide)
  have hp7 : ¬(f ++ "_SHA256" = f) := Ne.symm (ne_append_sha f)
  have hb7' : (f == f ++ "_SHA256") = false :=
    beq_eq_false_iff_ne.2 (ne_append_sha f)
  have hfv : f ≠ "VALUE" := fun e => hf (by rw [e]; decide)
  have hp8 : ¬(("VALUE" : String) = f) := fun e => hfv e.symm
  refine ⟨?_, ?_, fun v hv => by rcases hv with rfl | rfl <;> rfl⟩
  · simp only [flatten_array, Table.renamed, Table.dropCols, Table.joinFlattenArray,
      Table.distinct, Table.select, DROPPED_COLS]
    simp [hp1, hp2, hp3, hp4, hp5, hp6, hp7, hp8]
  · simp only [flatten_array, Table.renamed, Table.dropCols, Table.joinFlattenArray]
    rw [List.map_flatMap, List.map_flatMap]
    refine flatMap_congr_mem _ _ _ (fun r hr => ?_)
    have hr' := List.mem_dedup.1 hr
    rcases List.mem_map.1 hr' with ⟨r0, _, rfl⟩
    simp only [List.map_cons, List.map_nil, List.map_map]
    have hgf : getCol [(f ++ "_SHA256", getCol r0 (f ++ "_SHA256")), (f, getCol r0 f)]
        f = getCol r0 f := by
      simp [getCol, List.lookup, hb7']
    have hgh : getCol [(f ++ "_SHA256", getCol r0 (f ++ "_SHA256")), (f, getCol r0 f)]
        (f ++ "_SHA256") = getCol r0 (f ++ "_SHA256") := by
      simp [getCol, List.lookup]
    rw [hgf, hgh]
    refine List.map_congr_left (fun iv _ => ?_)
    simp only [Function.comp]
    simp [DROPPED_COLS, List.filter_cons, hp1, hp2, hp3, hp4, hp5, hp6, hp7, hp8]

/-- A one-row (hash, array) table for the C6 witness. -/
def c6Table : Table :=
  ⟨["ITEMS_SHA256", "ITEMS"],
   [[("ITEMS_SHA256", Value.vstr "h1"), ("ITEMS", Value.varr [Value.vnum 1])]]⟩

/-- Witness for C6: the flatten semantics instantiated at the field
`ITEMS` of a concrete table. -/
theorem c6_flatten_array_semantics_witness :
    (flatten_array c6Table "ITEMS").cols = ["ITEMS" ++ "_SHA256", "ITEMS"] ∧
    (flatten_array c6Table "ITEMS").rows =
      (((c6Table.select ["ITEMS" ++ "_SHA256", "ITEMS"]).distinct).rows).flatMap
        (fun r => (flattenArrayOut (getCol r "ITEMS")).map (fun iv =>
          ([(("ITEMS" : String) ++ "_SHA256", getCol r ("ITEMS" ++ "_SHA256")),
            ("ITEMS", iv.2)] : Row))) :=
  ⟨(c6_flatten_array_semantics c6Table "ITEMS" (by decide)).1,
   (c6_flatten_array_semantics c6Table "ITEMS" (by decide)).2.1⟩

/-- `addProc` adds its argument. -/
theorem mem_addProc_self (proc : List String) (c : String) : c ∈ addProc proc c := by
  by_cases h : c ∈ proc <;> simp [addProc, h]

/-- `addProc` keeps existing members. -/
theorem mem_addProc_of_mem (proc : List String) (x c : String) (h : c ∈ proc) :
    c ∈ addProc proc x := by
  by_cases hx : x ∈ proc <;> simp [addProc, hx, h]

/-- Spreading `addProc` over a list keeps old and adds new members. -/
theorem mem_foldl_addProc (cs : List String) (proc : List String) (c : String)
    (h : c ∈ cs ∨ c ∈ proc) : c ∈ cs.foldl addProc proc := by
  induction cs generalizing proc with
  | nil =>
    rcases h with h | h
    · cases h
    · exact h
  | cons x xs ih =>
    rcases h with h | h
    · rcases List.mem_cons.1 h with rfl | h'
      · exact ih _ (Or.inr (mem_addProc_self proc c))
      · exact ih _ (Or.inl h')
    · exact ih _ (Or.inr (mem_addProc_of_mem proc x c h))

/-- The field loop on an all-scalar unprocessed list leaves the dataframe
untouched, schedules no children, and marks every field processed. -/
theorem foldFields_all_scalar (detect : Nat) (cs : List String) (t : Table)
    (proc : List String) (nds : List (String × Table))
    (hscalar : ∀ c ∈ cs, typeDetect t c detect = []) :
    foldFields detect cs ⟨t, proc, nds⟩ =
      .ok ⟨t, cs.foldl addProc proc, nds⟩ := by
  induction cs generalizing proc with
  | nil => rfl
  | cons c cs ih =>
    simp only [foldFields, processField, hscalar c (by simp)]
    exact ih _ (fun c' hc' => hscalar c' (by simp [hc']))

/-- A table whose only column is a bookkeeping-named scalar column. -/
def c7Table : Table := ⟨["X_SHA256"], [[("X_SHA256", Value.vstr "h")]]⟩

/-- C7 (counterexample): a table containing only scalar columns whose
single column name contains `SHA256` is entirely filtered out as
bookkeeping, so the first call sees no unprocessed fields and returns
before the recording step: the run produces an EMPTY result map, not
exactly one terminal table identical to the input under "ENTRY". -/
theorem c7_flat_counterexample :
    snowpark_main_handler c7Table 100 "" "" 50 [] = .ok ([], []) ∧
    typeDetect c7Table "X_SHA256" 50 = [] := by
  constructor <;> rfl

/-- C7 (amended): for a table with at least one non-bookkeeping column
and only scalar columns (no field detected as ARRAY or OBJECT),
decomposition with `max_recursive_calls ≥ 2` produces exactly one
terminal table, literally equal to the input, recorded and persisted
under lineage path "ENTRY".  Because the sole terminal table IS the
input table, re-running the decomposition on it satisfies the same
hypotheses and returns it again as the sole terminal result:
decomposition is idempotent on such tables. -/
theorem c7_flat_idempotent (df : Table) (detect maxCalls : Nat)
    (schema0 : List (String × Table))
    (hmax : 2 ≤ maxCalls)
    (hne : unprocessedFields df [] ≠ [])
    (hscalar : ∀ c ∈ unprocessedFields df [], typeDetect df c detect = []) :
    snowpark_main_handler df maxCalls "" "" detect schema0 =
      .ok ([("ENTRY", df)], recordResult schema0 "ENTRY" df) := by
  obtain ⟨k, rfl⟩ : ∃ k, maxCalls = k + 2 := ⟨maxCalls - 2, by omega⟩
  have hisE : (unprocessedFields df []).isEmpty = false := by
    simpa [List.isEmpty_iff] using hne
  have e1 : ((0 + 1 : Nat) == k + 2) = false :=
    beq_eq_false_iff_ne.2 (by omega)
  have hff := foldFields_all_scalar detect (unprocessedFields df []) df [] [] hscalar
  have hu2 : unprocessedFields df ((unprocessedFields df []).foldl addProc []) = [] := by
    rw [unprocessedFields, List.filter_eq_nil_iff]
    intro c hc
    cases hbk : isBookkeeping c with
    | true => simp [hbk]
    | false =>
      have hcm : c ∈ unprocessedFields df [] :=
        List.mem_filter.2 ⟨hc, by simp [hbk]⟩
      have hcp : c ∈ (unprocessedFields df []).foldl addProc [] :=
        mem_foldl_addProc _ _ _ (Or.inl hcm)
      simp [hbk, hcp]
  show (match modelRec ⟨detect, k + 2, "", ""⟩ (k + 2) df "ENTRY" 0 ⟨[], [], []⟩ with
    | Except.error e => Except.error e
    | Except.ok st =>
      Except.ok (st.results,
        st.results.foldl (fun s (p : String × Table) => recordResult s p.1 p.2) schema0)) = _
  have hrun : modelRec ⟨detect, k + 2, "", ""⟩ (k + 2) df "ENTRY" 0 ⟨[], [], []⟩ =
      .ok ⟨(unprocessedFields df []).foldl addProc [], [("ENTRY", df)],
           [⟨"ENTRY", 1, [], unprocessedFields df []⟩,
            ⟨"ENTRY", 2, (unprocessedFields df []).foldl addProc [], []⟩]⟩ := by
    show modelRec _ ((k + 1) + 1) _ _ _ _ = _
    simp only [modelRec, hisE, e1, Bool.false_or, if_false, hff, hu2, goChildren,
      List.isEmpty_nil, Bool.true_or, if_true, recordResult, List.any_nil,
      Bool.false_eq_true, List.nil_append]
    rfl
  rw [hrun]
  rfl

/-! ## Run invariants: the shared processed set, counter bound, naming -/

/-- Along the ghost trace, in execution order, the processed set at call
entry only ever grows: the set is one shared object across the whole
run, also across lineage branches. -/
def traceMono : List CallLog → Prop
  | [] => True
  | [_] => True
  | e1 :: e2 :: rest =>
    (∀ c ∈ e1.procAtEntry, c ∈ e2.procAtEntry) ∧ traceMono (e2 :: rest)

/-- `traceMono` strengthened with an upper bound: the last entry's
processed set is below the current process-wide set. -/
def traceMonoUpto : List CallLog → List String → Prop
  | [], _ => True
  | [e], fin => ∀ c ∈ e.procAtEntry, c ∈ fin
  | e1 :: e2 :: rest, fin =>
    (∀ c ∈ e1.procAtEntry, c ∈ e2.procAtEntry) ∧ traceMonoUpto (e2 :: rest) fin

theorem traceMono_of_upto (l : List CallLog) (fin : List String)
    (h : traceMonoUpto l fin) : traceMono l := by
  induction l with
  | nil => trivial
  | cons e rest ih =>
    cases rest with
    | nil => trivial
    | cons e2 rest2 => exact ⟨h.1, ih h.2⟩

theorem traceMonoUpto_weaken (l : List CallLog) (fin fin' : List String)
    (h : traceMonoUpto l fin) (hsub : ∀ c ∈ fin, c ∈ fin') :
    traceMonoUpto l fin' := by
  induction l with
  | nil => trivial
  | cons e rest ih =>
    cases rest with
    | nil => exact fun c hc => hsub c (h c hc)
    | cons e2 rest2 => exact ⟨h.1, ih h.2⟩

theorem traceMonoUpto_append (l : List CallLog) (fin : List String)
    (p : String) (n : Nat) (u : List String) (h : traceMonoUpto l fin) :
    traceMonoUpto (l ++ [⟨p, n, fin, u⟩]) fin := by
  induction l with
  | nil => exact fun c hc => hc
  | cons e rest ih =>
    cases rest with
    | nil => exact ⟨h, fun c hc => hc⟩
    | cons e2 rest2 => exact ⟨h.1, ih h.2⟩

/-- A field reported unprocessed is not in the processed set used to
compute the unprocessed list. -/
theorem unprocessedFields_not_mem (df : Table) (proc : List String) (c : String)
    (h : c ∈ unprocessedFields df proc) : c ∉ proc := by
  have hp := (List.mem_filter.1 h).2
  intro hmem
  simp [hmem] at hp

/-- Keys of an overwrite-insert: an old entry or the inserted key. -/
theorem recordResult_keys (kv : String × Table) (m : List (String × Table))
    (k : String) (v : Table) (h : kv ∈ recordResult m k v) :
    kv ∈ m ∨ kv.1 = k := by
  unfold recordResult at h
  split at h
  · rcases List.mem_map.1 h with ⟨p, hp, he⟩
    by_cases hpk : p.1 = k
    · have hb : (p.1 == k) = true := beq_iff_eq.2 hpk
      rw [if_pos hb] at he
      right
      rw [← he]
    · have hb : (p.1 == k) = false := beq_eq_false_iff_ne.2 hpk
      rw [if_neg (by simp [hb])] at he
      left
      rw [← he]
      exact hp
  · rcases List.mem_append.1 h with h' | h'
    · exact Or.inl h'
    · right
      have : kv = (k, v) := by simpa using h'
      rw [this]

/-- `processField` never removes a name from the processed set. -/
theorem processField_processed_mono (detect : Nat) (ls ls' : LoopState)
    (cur : String) (h : processField detect ls cur = .ok ls') :
    ∀ c ∈ ls.processed, c ∈ ls'.processed := by
  unfold processField at h
  split at h
  · cases h; exact fun c hc => mem_addProc_of_mem _ _ _ hc
  · cases h; exact fun c hc => hc
  · split at h
    · cases h
    · cases h; exact fun c hc => mem_addProc_of_mem _ _ _ hc
  · cases h; exact fun c hc => hc
  · cases h

/-- The field loop never removes a name from the processed set. -/
theorem foldFields_processed_mono (detect : Nat) :
    ∀ (cs : List String) (ls ls' : LoopState),
      foldFields detect cs ls = .ok ls' →
      ∀ c ∈ ls.processed, c ∈ ls'.processed := by
  intro cs
  induction cs with
  | nil =>
    intro ls ls' h
    cases h
    exact fun c hc => hc
  | cons x xs ih =>
    intro ls ls' h
    cases hpf : processField detect ls x with
    | error e => rw [foldFields, hpf] at h; cases h
    | ok ls1 =>
      rw [foldFields, hpf] at h
      exact fun c hc => ih ls1 ls' h c (processField_processed_mono detect ls ls1 x hpf c hc)

/-- The run invariant: monotone shared processed set along the trace,
every call's unprocessed list disjoint from its entry processed set,
every traced counter within the cap, and every result key of the shape
`pre ++ lineage path ++ suf`. -/
def Inv (cfg : Config) (st : DState) : Prop :=
  traceMonoUpto st.trace st.processed ∧
  (∀ e ∈ st.trace, ∀ c ∈ e.unproc, c ∉ e.procAtEntry) ∧
  (∀ e ∈ st.trace, e.counter ≤ cfg.maxCalls) ∧
  (∀ kv ∈ st.results, ∃ p, kv.1 = cfg.pre ++ p ++ cfg.suf)

theorem inv_init (cfg : Config) : Inv cfg ⟨[], [], []⟩ := by
  refine ⟨trivial, ?_, ?_, ?_⟩ <;> intro e he <;> cases he

/-- `goChildren` preserves the run invariant and grows the processed set,
given that the supplied recursive call does. -/
theorem goChildren_inv (cfg : Config) (fuel : Nat)
    (hmr : ∀ (df : Table) (path : String) (counter : Nat) (st st' : DState),
      modelRec cfg fuel df path counter st = .ok st' →
      counter < cfg.maxCalls → Inv cfg st →
      Inv cfg st' ∧ ∀ c ∈ st.processed, c ∈ st'.processed) :
    ∀ (nds : List (String × Table)) (counter : Nat) (st st' : DState),
      goChildren (modelRec cfg fuel) counter nds st = .ok st' →
      counter < cfg.maxCalls → Inv cfg st →
      Inv cfg st' ∧ ∀ c ∈ st.processed, c ∈ st'.processed := by
  intro nds
  induction nds with
  | nil =>
    intro counter st st' h hc hInv
    cases h
    exact ⟨hInv, fun c hc' => hc'⟩
  | cons nd rest ih =>
    intro counter st st' h hc hInv
    cases hm : modelRec cfg fuel nd.2 nd.1 counter st with
    | error e => simp only [goChildren, hm] at h; cases h
    | ok st1 =>
      simp only [goChildren, hm] at h
      obtain ⟨hInv1, hmono1⟩ := hmr _ _ _ _ _ hm hc hInv
      obtain ⟨hInv2, hmono2⟩ := ih counter st1 st' h hc hInv1
      exact ⟨hInv2, fun c hcc => hmono2 c (hmono1 c hcc)⟩

/-- Master invariant lemma: a successful recursive call started below the
depth cap preserves the run invariant and only grows the process-wide
processed set. -/
theorem modelRec_inv (cfg : Config) :
    ∀ (fuel : Nat) (df : Table) (path : String) (counter : Nat) (st st' : DState),
      modelRec cfg fuel df path counter st = .ok st' →
      counter < cfg.maxCalls → Inv cfg st →
      Inv cfg st' ∧ ∀ c ∈ st.processed, c ∈ st'.processed := by
  intro fuel
  induction fuel with
  | zero =>
    intro df path counter st st' h hc hInv
    cases h
    exact ⟨hInv, fun c hc' => hc'⟩
  | succ fuel ih =>
    intro df path counter st st' h hcnt hInv
    have hInv1 : Inv cfg ⟨st.processed, st.results,
        st.trace ++ [⟨path, counter + 1, st.processed,
          unprocessedFields df st.processed⟩]⟩ := by
      obtain ⟨hMono, hDisj, hBound, hNamed⟩ := hInv
      refine ⟨traceMonoUpto_append _ _ _ _ _ hMono, ?_, ?_, hNamed⟩
      · intro e he c hcu
        rcases List.mem_append.1 he with he' | he'
        · exact hDisj e he' c hcu
        · have he2 : e = ⟨path, counter + 1, st.processed,
              unprocessedFields df st.processed⟩ := by simpa using he'
          subst he2
          exact unprocessedFields_not_mem df st.processed c hcu
      · intro e he
        rcases List.mem_append.1 he with he' | he'
        · exact hBound e he'
        · have he2 : e = ⟨path, counter + 1, st.processed,
              unprocessedFields df st.processed⟩ := by simpa using he'
          subst he2
          show counter + 1 ≤ cfg.maxCalls
          omega
    simp only [modelRec] at h
    by_cases hterm : ((unprocessedFields df st.processed).isEmpty
        || (counter + 1 == cfg.maxCalls)) = true
    · rw [if_pos hterm] at h
      cases h
      exact ⟨hInv1, fun c hc' => hc'⟩
    · rw [if_neg hterm] at h
      have hor : ((unprocessedFields df st.processed).isEmpty
          || (counter + 1 == cfg.maxCalls)) = false := by
        simpa using hterm
      have hne2 : counter + 1 ≠ cfg.maxCalls :=
        beq_eq_false_iff_ne.1 (Bool.or_eq_false_iff.1 hor).2
      have hlt : counter + 1 < cfg.maxCalls := by omega
      cases hfold : foldFields cfg.detect (unprocessedFields df st.processed)
          ⟨df, st.processed, []⟩ with
      | error e => simp only [hfold] at h; cases h
      | ok ls =>
        simp only [hfold] at h
        have hlsmono : ∀ c ∈ st.processed, c ∈ ls.processed :=
          fun c hc => foldFields_processed_mono cfg.detect _ _ _ hfold c hc
        have hInv2 : Inv cfg ⟨ls.processed,
            recordResult st.results (cfg.pre ++ path ++ cfg.suf) ls.df,
            st.trace ++ [⟨path, counter + 1, st.processed,
              unprocessedFields df st.processed⟩]⟩ := by
          obtain ⟨hM1, hD1, hB1, hN1⟩ := hInv1
          refine ⟨traceMonoUpto_weaken _ _ _ hM1 hlsmono, hD1, hB1, ?_⟩
          intro kv hkv
          rcases recordResult_keys kv _ _ _ hkv with hold | hnew
          · exact hN1 kv hold
          · exact ⟨path, hnew⟩
        cases hrec : modelRec cfg fuel ls.df path (counter + 1) ⟨ls.processed,
            recordResult st.results (cfg.pre ++ path ++ cfg.suf) ls.df,
            st.trace ++ [⟨path, counter + 1, st.processed,
              unprocessedFields df st.processed⟩]⟩ with
        | error e => simp only [hrec] at h; cases h
        | ok st3 =>
          simp only [hrec] at h
          obtain ⟨hInv3, hmono3⟩ := ih _ _ _ _ _ hrec hlt hInv2
          obtain ⟨hInv4, hmono4⟩ := goChildren_inv cfg fuel ih _ _ _ _ h hlt hInv3
          exact ⟨hInv4, fun c hc' => hmono4 c (hmono3 c (hlsmono c hc'))⟩

/-! ## Lookup facts for the overwrite-insert map -/

theorem lookup_map_overwrite (m : List (String × Table)) (k k' : String) (v : Table)
    (h : k' ≠ k) :
    List.lookup k' (m.map (fun p => if p.1 == k then (k, v) else p)) =
      List.lookup k' m := by
  induction m with
  | nil => rfl
  | cons p rest ih =>
    simp only [List.map_cons]
    by_cases hp : p.1 = k
    · have hb : ((p.1 == k) = true) := beq_iff_eq.2 hp
      rw [if_pos hb]
      have hk1 : (k' == k) = false := beq_eq_false_iff_ne.2 h
      have hk2 : (k' == p.1) = false := beq_eq_false_iff_ne.2 (by rw [hp]; exact h)
      simp [List.lookup, hk1, hk2]
      simpa using ih
    · have hb : ¬((p.1 == k) = true) := by simp [hp]
      rw [if_neg hb]
      by_cases hkp : k' = p.1
      · simp [List.lookup, hkp]
      · have hk1 : (k' == p.1) = false := beq_eq_false_iff_ne.2 hkp
        simp [List.lookup, hk1]
        simpa using ih

theorem lookup_map_overwrite_self (m : List (String × Table)) (k : String) (v : Table)
    (h : m.any (fun p => p.1 == k) = true) :
    List.lookup k (m.map (fun p => if p.1 == k then (k, v) else p)) = some v := by
  induction m with
  | nil => simp at h
  | cons p rest ih =>
    simp only [List.map_cons]
    by_cases hp : p.1 = k
    · have hb : ((p.1 == k) = true) := beq_iff_eq.2 hp
      rw [if_pos hb]
      simp [List.lookup]
    · have hb : ¬((p.1 == k) = true) := by simp [hp]
      rw [if_neg hb]
      have hk1 : (k == p.1) = false := beq_eq_false_iff_ne.2 (fun e => hp e.symm)
      have h' : rest.any (fun p => p.1 == k) = true := by
        simpa [beq_eq_false_iff_ne.2 hp] using h
      simp [List.lookup, hk1]
      simpa using ih h'

/-- Unfolding `List.lookup` over a cons cell. -/
theorem lookup_cons {β : Type} (c a : String) (b : β) (l : List (String × β)) :
    List.lookup c ((a, b) :: l) = if c == a then some b else List.lookup c l := by
  cases h : c == a <;> simp [List.lookup, h]

theorem lookup_none_of_no_key (m : List (String × Table)) (k : String)
    (h : m.any (fun p => p.1 == k) = false) :
    List.lookup k m = none := by
  induction m with
  | nil => rfl
  | cons p rest ih =>
    simp only [List.any_cons] at h
    have hparts := Bool.or_eq_false_iff.1 h
    have hk1 : (k == p.1) = false :=
      beq_eq_false_iff_ne.2 (fun e => (beq_eq_false_iff_ne.1 hparts.1) e.symm)
    obtain ⟨a, b⟩ := p
    rw [lookup_cons, if_neg (by simp [hk1] : ¬((k == a) = true))]
    exact ih hparts.2

/-- Overwrite-insert then read the same key: the new table. -/
theorem lookup_recordResult_self (m : List (String × Table)) (k : String) (v : Table) :
    List.lookup k (recordResult m k v) = some v := by
  unfold recordResult
  split
  · next hany => exact lookup_map_overwrite_self m k v hany
  · next hany =>
    rw [lookup_append, lookup_none_of_no_key m k (Bool.eq_false_iff.2 hany)]
    simp [List.lookup]

/-- Overwrite-insert then read a different key: unchanged. -/
theorem lookup_recordResult_ne (m : List (String × Table)) (k k' : String) (v : Table)
    (h : k' ≠ k) :
    List.lookup k' (recordResult m k v) = List.lookup k' m := by
  unfold recordResult
  split
  · exact lookup_map_overwrite m k k' v h
  · rw [lookup_append]
    have hlast : List.lookup k' [(k, v)] = none := by
      have hb : (k' == k) = false := beq_eq_false_iff_ne.2 h
      simp [List.lookup, hb]
    rw [hlast]
    cases List.lookup k' m <;> rfl

/-- A concrete flat table for the C7 witness. -/
def c7TableW : Table :=
  ⟨["A", "B"], [[("A", Value.vnum 1), ("B", Value.vstr "x")]]⟩

/-- Witness for C7: the amended flat/idempotence fact at a concrete
two-column scalar table. -/
theorem c7_flat_idempotent_witness :
    snowpark_main_handler c7TableW 100 "" "" 50 [] =
      .ok ([("ENTRY", c7TableW)], recordResult [] "ENTRY" c7TableW) :=
  c7_flat_idempotent c7TableW 50 100 [] (by omega) (by decide) (by decide)

/-- A root whose scalar column `G__K` collides with the name of the
column that expanding the child's object field `G` later generates. -/
def c3Table : Table :=
  ⟨["G__K", "G"],
   [[("G__K", Value.vnum 5),
     ("G", Value.varr [Value.vobj [("K", Value.varr [Value.vnum 1])]])]]⟩

/-- The final state of the decomposition run on `c3Table`. -/
def c3Run : DState :=
  match modelRec ⟨50, 100, "", ""⟩ 100 c3Table "ENTRY" 0 ⟨[], [], []⟩ with
  | .ok st => st
  | .error _ => ⟨[], [], []⟩

/-- C3: the processed-field set is one shared, monotonically growing set
across every recursive call of a run, in execution order and across all
lineage branches — each call's entry set contains every earlier call's
entry set — and every name in that shared set is excluded from the
call's unprocessed list, so it is never classified, expanded or exploded
there, regardless of its values in that table. -/
theorem c3_shared_processed_set (cfg : Config) (fuel : Nat) (df : Table)
    (path : String) (counter : Nat) (st' : DState)
    (h : modelRec cfg fuel df path counter ⟨[], [], []⟩ = .ok st')
    (hcnt : counter < cfg.maxCalls) :
    traceMono st'.trace ∧
    (∀ e ∈ st'.trace, ∀ c ∈ e.unproc, c ∉ e.procAtEntry) := by
  obtain ⟨⟨hM, hD, _, _⟩, _⟩ :=
    modelRec_inv cfg fuel df path counter _ st' h hcnt (inv_init cfg)
  exact ⟨traceMono_of_upto _ _ hM, hD⟩

/-- Witness for C3: the shared-set monotonicity on a concrete run in
which the root marks `G__K` processed and the child table spawned from
the array field `G` therefore never expands its own `G__K` column even
though that column holds arrays there. -/
theorem c3_shared_processed_set_witness : traceMono c3Run.trace :=
  (c3_shared_processed_set ⟨50, 100, "", ""⟩ 100 c3Table "ENTRY" 0 c3Run rfl
    (by decide)).1

/-- A root with one object column carrying two subfields. -/
def c9Table : Table :=
  ⟨["OBJ"], [[("OBJ", Value.vobj [("A", Value.vnum 1), ("B", Value.vnum 2)])]]⟩

/-- The final state of the decomposition run on `c9Table`. -/
def c9Run : DState :=
  match modelRec ⟨50, 100, "", ""⟩ 100 c9Table "ENTRY" 0 ⟨[], [], []⟩ with
  | .ok st => st
  | .error _ => ⟨[], [], []⟩

/-- C9 (counterexample): expanding the object field `OBJ` exposes the two
fresh columns `OBJ__A`, `OBJ__B`, so along the same lineage "ENTRY" the
unprocessed set sizes are 1, then 2, then 0 — the unprocessed set GROWS
from one call to the next, refuting "strictly reducing the unprocessed
set at each step within the same lineage". -/
theorem c9_unprocessed_not_strictly_reducing :
    c9Run.trace.map (fun e => (e.path, e.unproc.length)) =
      [("ENTRY", 1), ("ENTRY", 2), ("ENTRY", 0)] ∧
    ¬ List.Chain' (fun a b => a > b)
        (c9Run.trace.map (fun e => e.unproc.length)) := by
  constructor
  · rfl
  · have e : c9Run.trace.map (fun e => e.unproc.length) = [1, 2, 0] := rfl
    rw [e]
    intro hch
    have h12 := (List.chain'_cons.1 hch).1
    omega

/-- C9 (amended): the embedded recursion is a total function; on every
successful run started below the depth cap, each traced call's counter
stays within `max_recursive_calls` (the cap is the backstop bounding the
call-tree depth), and the shared processed set grows monotonically along
the trace up to the final set — an OBJECT field, once expanded, stays in
the set of every later call and can never recreate the same unprocessed
field; ARRAY fields are dropped from their origin table and handled in
separate child calls.  The unprocessed set itself need not strictly
shrink within a lineage (object expansion adds fresh subfield columns),
which is the part the counterexample refutes. -/
theorem c9_termination_measures (cfg : Config) (fuel : Nat) (df : Table)
    (path : String) (counter : Nat) (st' : DState)
    (h : modelRec cfg fuel df path counter ⟨[], [], []⟩ = .ok st')
    (hcnt : counter < cfg.maxCalls) :
    (∀ e ∈ st'.trace, e.counter ≤ cfg.maxCalls) ∧
    traceMonoUpto st'.trace st'.processed := by
  obtain ⟨⟨hM, _, hB, _⟩, _⟩ :=
    modelRec_inv cfg fuel df path counter _ st' h hcnt (inv_init cfg)
  exact ⟨hB, hM⟩

/-- Witness for C9: the counter bound and processed-set monotonicity on
the concrete object-table run. -/
theorem c9_termination_measures_witness :
    traceMonoUpto c9Run.trace c9Run.processed :=
  (c9_termination_measures ⟨50, 100, "", ""⟩ 100 c9Table "ENTRY" 0 c9Run rfl
    (by decide)).2

/-- A root table with one scalar field and one array field `ITEMS`. -/
def c8Table : Table :=
  ⟨["ID", "ITEMS"],
   [[("ID", Value.vnum 1), ("ITEMS", Value.varr [Value.vnum 10, Value.vnum 20])],
    [("ID", Value.vnum 2), ("ITEMS", Value.varr [Value.vnum 30])]]⟩

/-- The reduced root recorded under "ENTRY": `ITEMS` dropped, the hash
column remaining. -/
def c8Entry : Table :=
  ⟨["ID", "ITEMS_SHA256"],
   [[("ID", Value.vnum 1), ("ITEMS_SHA256", Value.vstr "sha256:[10,20]")],
    [("ID", Value.vnum 2), ("ITEMS_SHA256", Value.vstr "sha256:[30]")]]⟩

/-- The exploded child recorded under "ITEMS". -/
def c8Items : Table :=
  ⟨["ITEMS_SHA256", "ITEMS"],
   [[("ITEMS_SHA256", Value.vstr "sha256:[10,20]"), ("ITEMS", Value.vnum 10)],
    [("ITEMS_SHA256", Value.vstr "sha256:[10,20]"), ("ITEMS", Value.vnum 20)],
    [("ITEMS_SHA256", Value.vstr "sha256:[30]"), ("ITEMS", Value.vnum 30)]]⟩

/-- The final state of the decomposition run on `c8Table`. -/
def c8Run : DState :=
  match modelRec ⟨50, 100, "", ""⟩ 100 c8Table "ENTRY" 0 ⟨[], [], []⟩ with
  | .ok st => st
  | .error _ => ⟨[], [], []⟩

/-- A pre-existing destination table to be overwritten. -/
def c8Old : Table := ⟨["OLD"], []⟩

/-- C8: on a root with one array field `ITEMS` the run returns exactly
the terminal tables "ENTRY" (reduced root, array column dropped) and
"ITEMS" (exploded child); in general every key of the returned mapping
has the shape `prefix ++ lineagePath ++ suffix`; and persisting the
results writes each table into the destination schema under its name
with overwrite semantics — an existing table of the same name is
replaced, regardless of the schema's prior contents. -/
theorem c8_lineage_naming_and_persistence :
    (snowpark_main_handler c8Table 100 "" "" 50 [] =
      .ok ([("ENTRY", c8Entry), ("ITEMS", c8Items)],
           [("ENTRY", c8Entry), ("ITEMS", c8Items)])) ∧
    (∀ (cfg : Config) (fuel : Nat) (df : Table) (path : String) (counter : Nat)
        (st' : DState),
      modelRec cfg fuel df path counter ⟨[], [], []⟩ = .ok st' →
      counter < cfg.maxCalls →
      ∀ kv ∈ st'.results, ∃ p, kv.1 = cfg.pre ++ p ++ cfg.suf) ∧
    (∀ schema0 : List (String × Table),
      List.lookup "ENTRY"
        (persistAll schema0 [("ENTRY", c8Entry), ("ITEMS", c8Items)]) = some c8Entry ∧
      List.lookup "ITEMS"
        (persistAll schema0 [("ENTRY", c8Entry), ("ITEMS", c8Items)]) = some c8Items) := by
  refine ⟨by rfl, ?_, ?_⟩
  · intro cfg fuel df path counter st' h hcnt
    exact ((modelRec_inv cfg fuel df path counter _ st' h hcnt (inv_init cfg)).1).2.2.2
  · intro schema0
    show List.lookup "ENTRY"
        (recordResult (recordResult schema0 "ENTRY" c8Entry) "ITEMS" c8Items) = _ ∧
      List.lookup "ITEMS"
        (recordResult (recordResult schema0 "ENTRY" c8Entry) "ITEMS" c8Items) = _
    constructor
    · rw [lookup_recordResult_ne _ _ _ _ (by decide), lookup_recordResult_self]
    · rw [lookup_recordResult_self]

/-- Witness for C8: overwrite of an existing "ENTRY" table in the
destination schema, and the prefix-path-suffix shape of a returned key. -/
theorem c8_lineage_naming_and_persistence_witness :
    (List.lookup "ENTRY" (persistAll [("ENTRY", c8Old)]
      [("ENTRY", c8Entry), ("ITEMS", c8Items)]) = some c8Entry) ∧
    (∃ p, ("ENTRY" : String) = ("" : String) ++ p ++ "") :=
  ⟨(c8_lineage_naming_and_persistence.2.2 [("ENTRY", c8Old)]).1,
   c8_lineage_naming_and_persistence.2.1 ⟨50, 100, "", ""⟩ 100 c8Table "ENTRY" 0
     c8Run rfl (by decide) ("ENTRY", c8Entry) (by exact List.mem_cons_self _ _)⟩

end NestedJson
